import Mathlib

/-!
Shallow embedding of `src/src/lib.rs` (crate `grex_nc_dump_test`).

Modelling conventions:
* `u64` / `usize` are modelled as `Nat`.  The only arithmetic the code
  performs on them is `write_ptr = (write_ptr + 1) % capacity` (always in
  `[0, capacity)`, no overflow) and `oldest + 1` on a packet counter; the
  claims' inputs (distinct contiguous sequence numbers) live in ℕ, so no
  `% 2^64` reduction is relevant to any claim.
* `i8` sample values are modelled as `Int`; the code never computes with
  them, it only copies them.
* The fixed-size Rust arrays `[Complex<i8>; CHANNELS]` are modelled as
  index functions `Nat → Cplx`; only indices `< CHANNELS` are ever read.
* The `ndarray` buffer `Array4<i8>` of shape `(capacity, 2, CHANNELS, 2)`
  is modelled as a `List` of `capacity` slots, each slot being the
  `(2, CHANNELS, 2)` tensor of one frame, itself modelled as an index
  function `Nat → Nat → Nat → Int`.
* `DumpRing::dump` threads its netcdf calls through the `?` operator; it
  is modelled as a pure function that also returns the list of adapter
  sub-operations actually performed and the (unmodified, `&self`) ring.
-/

/-- `const CHANNELS: usize = 2048;` -/
def CHANNELS : Nat := 2048

/-- `Complex<i8>`: a complex sample, one signed byte per component. -/
structure Cplx where
  re : Int
  im : Int
deriving Repr, DecidableEq

/-- `struct Payload { count: u64, pol_a: [Complex<i8>; CHANNELS], pol_b: [Complex<i8>; CHANNELS] }`
(`#[repr(C)]`, so `pol_a` is followed contiguously by `pol_b`). -/
structure Payload where
  count : Nat
  pol_a : Nat → Cplx
  pol_b : Nat → Cplx

/-- The byte at offset `o` from the start of `pol_a`, as laid out by
`#[repr(C)]`: `pol_a` occupies bytes `[0, CHANNELS*2)` (each `Complex<i8>`
is `[re, im]`), `pol_b` the next `CHANNELS*2` bytes. -/
def Payload.channelBytes (p : Payload) (o : Nat) : Int :=
  if o < CHANNELS * 2 then
    if o % 2 = 0 then (p.pol_a (o / 2)).re else (p.pol_a (o / 2)).im
  else
    let o2 := o - CHANNELS * 2
    if o2 % 2 = 0 then (p.pol_b (o2 / 2)).re else (p.pol_b (o2 / 2)).im

/-- `Payload::as_ndarray_data_view`: `ArrayView::from_shape_ptr((2, CHANNELS, 2), ptr)`
over the byte region starting at `pol_a`.  With the default row-major (C)
strides `(CHANNELS*2, 2, 1)`, element `(pol, chan, reim)` is the byte at
offset `pol*CHANNELS*2 + chan*2 + reim`. -/
def Payload.as_ndarray_data_view (p : Payload) (pol chan reim : Nat) : Int :=
  p.channelBytes (pol * (CHANNELS * 2) + chan * 2 + reim)

/-- One time-slot of the ring buffer: a `(2, CHANNELS, 2)` tensor of `i8`. -/
def SlotData : Type := Nat → Nat → Nat → Int

/-- A zeroed slot (`Array::zeros`). -/
def zeroSlot : SlotData := fun _ _ _ => 0

/-- `struct DumpRing { write_ptr: usize, buffer: Array4<i8>, capacity: usize,
oldest: Option<u64>, full: bool }`.  The buffer of shape
`(capacity, 2, CHANNELS, 2)` is a list of `capacity` slots. -/
structure DumpRing where
  write_ptr : Nat
  buffer : List SlotData
  capacity : Nat
  oldest : Option Nat
  full : Bool

/-- `DumpRing::new(capacity)`: zero-initialised storage, cursor at 0,
empty, not full. -/
def DumpRing.new (capacity : Nat) : DumpRing :=
  { write_ptr := 0
    buffer := List.replicate capacity zeroSlot
    capacity := capacity
    oldest := none
    full := false }

/-- `DumpRing::push`: copy the payload's data view into the slot at
`write_ptr`, advance `write_ptr` modulo `capacity`, then run the
bookkeeping exactly as the source does — note the early `return` after
the first insertion sets `oldest`, which skips both the `full` check and
the `full` update on that call. -/
def DumpRing.push (r : DumpRing) (pl : Payload) : DumpRing :=
  let buffer := r.buffer.set r.write_ptr pl.as_ndarray_data_view
  let write_ptr := (r.write_ptr + 1) % r.capacity
  match r.oldest with
  | none =>
    { r with buffer := buffer, write_ptr := write_ptr, oldest := some pl.count }
  | some o =>
    let oldest := if r.full then some (o + 1) else some o
    let full := if write_ptr == 0 && !r.full then true else r.full
    { r with buffer := buffer, write_ptr := write_ptr, oldest := oldest, full := full }

/-- Fold a sequence of `push` calls over a ring (left to right, i.e. in
insertion order). -/
def DumpRing.pushAll (r : DumpRing) (ps : List Payload) : DumpRing :=
  ps.foldl DumpRing.push r

/-- `DumpRing::consecutive_views`: if not full, `(buffer[..write_ptr], empty)`;
if full, `(buffer[write_ptr..], buffer[..write_ptr])`. -/
def DumpRing.consecutive_views (r : DumpRing) : List SlotData × List SlotData :=
  if !r.full then
    (r.buffer.take r.write_ptr, ([] : List SlotData))
  else
    (r.buffer.drop r.write_ptr, r.buffer.take r.write_ptr)

/-- The number of logical frames the store exposes: the total length of
the two chronological regions (§4.3: their concatenation is "the store's
current logical contents"). -/
def DumpRing.logicalLen (r : DumpRing) : Nat :=
  r.consecutive_views.1.length + r.consecutive_views.2.length

/-- A concrete payload used to evaluate the model: sequence number `n`,
every sample equal to `n + 0i`. -/
def testPayload (n : Nat) : Payload :=
  { count := n
    pol_a := fun _ => ⟨Int.ofNat n, 0⟩
    pol_b := fun _ => ⟨Int.ofNat n, 0⟩ }


/-- One fallible sub-operation of `DumpRing::dump` against the netcdf
adapter, with the arguments the source passes. -/
inductive NcStep where
  | create
  | addDimension (name : String) (len : Nat)
  | addVarF64 (name : String) (dims : List String)
  | addStringVar (name : String) (dims : List String)
  | addVarI8 (name : String) (dims : List String)
  | putAttribute (var attr value : String)
  | putString (var value : String) (idx : Nat)
  | setChunking (var : String) (sizes : List Nat)
  | putRegion (var : String) (timeOffset : Nat) (data : List SlotData)

/-- The adapter sub-operations `DumpRing::dump` issues, in source order:
`netcdf::create`, the four `add_dimension` calls, the dimension-describing
variables with their attributes and labels, the `voltages` variable, its
chunking, and the two region writes at consecutive time offsets. -/
def DumpRing.dumpSteps (r : DumpRing) (chunk_size : Nat) : List NcStep :=
  let a := r.consecutive_views.1
  let b := r.consecutive_views.2
  [ .create,
    .addDimension "time" r.capacity,
    .addDimension "pol" 2,
    .addDimension "freq" CHANNELS,
    .addDimension "reim" 2,
    .addVarF64 "time" ["time"],
    .putAttribute "time" "units" "Days",
    .putAttribute "time" "long_name" "TAI days since the MJD Epoch",
    .addStringVar "pol" ["pol"],
    .putAttribute "pol" "long_name" "Polarization",
    .putString "pol" "a" 0,
    .putString "pol" "b" 1,
    .addVarF64 "freq" ["freq"],
    .putAttribute "freq" "units" "Megahertz",
    .putAttribute "freq" "long_name" "Frequency",
    .addStringVar "reim" ["reim"],
    .putAttribute "reim" "long_name" "Complex",
    .putString "reim" "real" 0,
    .putString "reim" "imaginary" 1,
    .addVarI8 "voltages" ["time", "pol", "freq", "reim"],
    .putAttribute "voltages" "long_name" "Channelized Voltages",
    .putAttribute "voltages" "units" "Volts",
    .setChunking "voltages" [chunk_size, 2, CHANNELS, 2],
    .putRegion "voltages" 0 a,
    .putRegion "voltages" a.length b ]

/-- Run a list of fallible sub-operations in order against an adapter
(`adapter s = none` means step `s` succeeds, `some e` that it fails with
`e`).  This is the `?`-operator chaining of the source: the first failure
short-circuits.  Returns the overall result and the list of steps that
were actually performed. -/
def runSteps {E : Type} (adapter : NcStep → Option E) :
    List NcStep → Except E Unit × List NcStep
  | [] => (Except.ok (), [])
  | s :: rest =>
    match adapter s with
    | some e => (Except.error e, [s])
    | none =>
      let out := runSteps adapter rest
      (out.1, s :: out.2)

/-- `DumpRing::dump(&self, chunk_size)`: issue the sub-operations of
`dumpSteps` in order, stopping at the first failure.  The ring is taken
by shared reference, so it is returned unchanged as the explicit state. -/
def DumpRing.dump {E : Type} (r : DumpRing) (chunk_size : Nat)
    (adapter : NcStep → Option E) : Except E Unit × List NcStep × DumpRing :=
  let out := runSteps adapter (r.dumpSteps chunk_size)
  (out.1, out.2, r)

/-- The sub-region `buffer[a .. b)`, as the spec phrases the regions of
the chronological split. -/
def regionSlice (l : List SlotData) (a b : Nat) : List SlotData :=
  (l.drop a).take (b - a)

lemma DumpRing.push_buffer (r : DumpRing) (pl : Payload) :
    (r.push pl).buffer = r.buffer.set r.write_ptr pl.as_ndarray_data_view := by
  cases h : r.oldest <;> simp [DumpRing.push, h]

lemma DumpRing.push_capacity (r : DumpRing) (pl : Payload) :
    (r.push pl).capacity = r.capacity := by
  cases h : r.oldest <;> simp [DumpRing.push, h]

lemma DumpRing.push_write_ptr (r : DumpRing) (pl : Payload) :
    (r.push pl).write_ptr = (r.write_ptr + 1) % r.capacity := by
  cases h : r.oldest <;> simp [DumpRing.push, h]

lemma DumpRing.push_oldest_isSome (r : DumpRing) (pl : Payload) :
    (r.push pl).oldest.isSome = true := by
  cases h : r.oldest with
  | none => simp [DumpRing.push, h]
  | some o =>
    simp only [DumpRing.push, h]
    by_cases hf : r.full <;> simp [hf]

lemma DumpRing.push_full_mono (r : DumpRing) (pl : Payload) (h : r.full = true) :
    (r.push pl).full = true := by
  cases ho : r.oldest <;> simp [DumpRing.push, ho, h]

lemma DumpRing.push_buffer_length (r : DumpRing) (pl : Payload) :
    (r.push pl).buffer.length = r.buffer.length := by
  rw [DumpRing.push_buffer]; exact List.length_set ..

@[simp] lemma DumpRing.pushAll_nil (r : DumpRing) : r.pushAll [] = r := rfl

@[simp] lemma DumpRing.pushAll_cons (r : DumpRing) (p : Payload) (ps : List Payload) :
    r.pushAll (p :: ps) = (r.push p).pushAll ps := rfl

lemma DumpRing.pushAll_capacity (ps : List Payload) (r : DumpRing) :
    (r.pushAll ps).capacity = r.capacity := by
  induction ps generalizing r with
  | nil => rfl
  | cons p ps ih => rw [DumpRing.pushAll_cons, ih, DumpRing.push_capacity]

lemma DumpRing.pushAll_buffer_length (ps : List Payload) (r : DumpRing) :
    (r.pushAll ps).buffer.length = r.buffer.length := by
  induction ps generalizing r with
  | nil => rfl
  | cons p ps ih => rw [DumpRing.pushAll_cons, ih, DumpRing.push_buffer_length]

lemma DumpRing.pushAll_write_ptr_lt (ps : List Payload) (r : DumpRing)
    (hc : 0 < r.capacity) (hw : r.write_ptr < r.capacity) :
    (r.pushAll ps).write_ptr < (r.pushAll ps).capacity := by
  induction ps generalizing r with
  | nil => exact hw
  | cons p ps ih =>
    rw [DumpRing.pushAll_cons]
    refine ih (r.push p) ?_ ?_
    · rw [DumpRing.push_capacity]; exact hc
    · rw [DumpRing.push_write_ptr, DumpRing.push_capacity]
      exact Nat.mod_lt _ hc

lemma DumpRing.pushAll_oldest_isSome (ps : List Payload) (r : DumpRing)
    (h : r.oldest.isSome = true) :
    (r.pushAll ps).oldest.isSome = true := by
  induction ps generalizing r with
  | nil => exact h
  | cons p ps ih =>
    rw [DumpRing.pushAll_cons]
    exact ih (r.push p) (DumpRing.push_oldest_isSome r p)

/-- C1: the claim fails at `capacity = 1`, `k = 1`.  After one `push` of a
frame with sequence number 5 into a fresh capacity-1 ring, the claim
requires the store to hold 1 logical frame with `full = (1 == 1) = true`;
the code's early return (taken because `oldest` was `None`) skips the
`full` update, leaving `full = false` and the chronological views empty
(`logicalLen = 0`), although `oldest = some 5` is set as claimed. -/
theorem push_upto_capacity_fails_at_one :
    ((DumpRing.new 1).push (testPayload 5)).full = false ∧
    ((DumpRing.new 1).push (testPayload 5)).oldest = some 5 ∧
    ((DumpRing.new 1).push (testPayload 5)).logicalLen = 0 :=
  ⟨rfl, rfl, rfl⟩

/-- C2: the claim fails at `capacity = 1`, `k = 2`.  After pushing frames
with sequence numbers 5 and 6 into a fresh capacity-1 ring, the claim
requires `oldest_sequence = 5 + (2 - 1) = 6`; the code leaves
`oldest = some 5`, because on the second push `full` was still `false`
(the first push's early return never set it), so the eviction increment
was skipped even though frame 5's slot was overwritten by frame 6. -/
theorem push_beyond_capacity_fails_at_one :
    (((DumpRing.new 1).push (testPayload 5)).push (testPayload 6)).oldest = some 5 ∧
    (((DumpRing.new 1).push (testPayload 5)).push (testPayload 6)).full = true :=
  ⟨rfl, rfl⟩

/-- C3: the claim fails on the code.  After one push into a capacity-1
ring, `write_cursor = 0` holds as claimed, but `full = false` (the early
return skipped the `full` update), and consequently `consecutive_views`
returns two empty regions instead of a first region spanning the single
slot. -/
theorem capacity_one_first_push_state :
    ((DumpRing.new 1).push (testPayload 0)).write_ptr = 0 ∧
    ((DumpRing.new 1).push (testPayload 0)).full = false ∧
    ((DumpRing.new 1).push (testPayload 0)).consecutive_views =
      (([] : List SlotData), ([] : List SlotData)) :=
  ⟨rfl, rfl, rfl⟩

/-- C5: the claim fails at `C = 1`.  Pushing the single frame with
sequence number 0 into a fresh capacity-1 ring, the concatenation of the
two chronological regions is empty, not the one-element list holding
frame 0's tensor data, because `full` was never set and the not-full
branch of the splitter reports `buffer[0 .. write_ptr) = buffer[0 .. 0)`. -/
theorem roundtrip_fails_at_capacity_one :
    ((DumpRing.new 1).push (testPayload 0)).consecutive_views.1 ++
      ((DumpRing.new 1).push (testPayload 0)).consecutive_views.2 = ([] : List SlotData) ∧
    ([] : List SlotData) ≠ [(testPayload 0).as_ndarray_data_view] :=
  ⟨rfl, by simp⟩

/-- C6: with `capacity = 4`, pushing frames with sequence numbers
`0,1,2,3,4,5` in order yields `oldest = some 2`, `write_ptr = 2`, and the
concatenation of the two chronological regions holds the frames' tensor
data in sequence order `2, 3, 4, 5`. -/
theorem wrap_capacity_four (p0 p1 p2 p3 p4 p5 : Payload)
    (h0 : p0.count = 0) (h1 : p1.count = 1) (h2 : p2.count = 2)
    (h3 : p3.count = 3) (h4 : p4.count = 4) (h5 : p5.count = 5) :
    (((((((DumpRing.new 4).push p0).push p1).push p2).push p3).push p4).push p5).oldest
        = some 2 ∧
    (((((((DumpRing.new 4).push p0).push p1).push p2).push p3).push p4).push p5).write_ptr
        = 2 ∧
    (((((((DumpRing.new 4).push p0).push p1).push p2).push p3).push p4).push p5).consecutive_views.1
        ++ (((((((DumpRing.new 4).push p0).push p1).push p2).push p3).push p4).push p5).consecutive_views.2
      = [p2.as_ndarray_data_view, p3.as_ndarray_data_view,
         p4.as_ndarray_data_view, p5.as_ndarray_data_view] := by
  refine ⟨?_, by with_unfolding_all rfl, by with_unfolding_all rfl⟩
  have hstep :
      (((((((DumpRing.new 4).push p0).push p1).push p2).push p3).push p4).push p5).oldest
        = some (p0.count + 1 + 1) := by with_unfolding_all rfl
  rw [hstep, h0]

/-- Witness for C6 at the concrete payloads `testPayload 0 .. testPayload 5`. -/
theorem wrap_capacity_four_witness :
    (((((((DumpRing.new 4).push (testPayload 0)).push (testPayload 1)).push
          (testPayload 2)).push (testPayload 3)).push (testPayload 4)).push
          (testPayload 5)).oldest = some 2 ∧
    (((((((DumpRing.new 4).push (testPayload 0)).push (testPayload 1)).push
          (testPayload 2)).push (testPayload 3)).push (testPayload 4)).push
          (testPayload 5)).write_ptr = 2 ∧
    (((((((DumpRing.new 4).push (testPayload 0)).push (testPayload 1)).push
          (testPayload 2)).push (testPayload 3)).push (testPayload 4)).push
          (testPayload 5)).consecutive_views.1
        ++ (((((((DumpRing.new 4).push (testPayload 0)).push (testPayload 1)).push
          (testPayload 2)).push (testPayload 3)).push (testPayload 4)).push
          (testPayload 5)).consecutive_views.2
      = [(testPayload 2).as_ndarray_data_view, (testPayload 3).as_ndarray_data_view,
         (testPayload 4).as_ndarray_data_view, (testPayload 5).as_ndarray_data_view] :=
  wrap_capacity_four (testPayload 0) (testPayload 1) (testPayload 2)
    (testPayload 3) (testPayload 4) (testPayload 5) rfl rfl rfl rfl rfl rfl

lemma Payload.channelBytes_decode_a (p : Payload) (chan comp : Nat)
    (hc : chan < CHANNELS) (hk : comp < 2) :
    p.channelBytes (chan * 2 + comp) =
      (if comp = 0 then (p.pol_a chan).re else (p.pol_a chan).im) := by
  have hlt : chan * 2 + comp < CHANNELS * 2 := by
    simp only [CHANNELS] at hc ⊢; omega
  have hdiv : (chan * 2 + comp) / 2 = chan := by omega
  rw [Payload.channelBytes, if_pos hlt, hdiv]
  interval_cases comp
  · simp
  · rw [if_neg (by omega)]
    simp

lemma Payload.channelBytes_decode_b (p : Payload) (chan comp : Nat)
    (hc : chan < CHANNELS) (hk : comp < 2) :
    p.channelBytes (CHANNELS * 2 + (chan * 2 + comp)) =
      (if comp = 0 then (p.pol_b chan).re else (p.pol_b chan).im) := by
  have hge : ¬ CHANNELS * 2 + (chan * 2 + comp) < CHANNELS * 2 := by omega
  have hsub : CHANNELS * 2 + (chan * 2 + comp) - CHANNELS * 2 = chan * 2 + comp := by omega
  have hdiv : (chan * 2 + comp) / 2 = chan := by omega
  rw [Payload.channelBytes, if_neg hge]
  simp only [hsub, hdiv]
  interval_cases comp
  · simp
  · rw [if_neg (by omega)]
    simp

/-- C7: the data view of a payload at valid indices `(pol, chan, comp)`
is the byte at offset `pol*CHANNELS*2 + chan*2 + comp` from the start of
`pol_a`'s bytes, and that byte is the real (`comp = 0`) or imaginary
(`comp = 1`) part of channel `chan` of polarization `pol` (0 = A, 1 = B). -/
theorem frame_view_layout (p : Payload) (pol chan comp : Nat)
    (hp : pol < 2) (hc : chan < CHANNELS) (hk : comp < 2) :
    p.as_ndarray_data_view pol chan comp =
      p.channelBytes (pol * (CHANNELS * 2) + chan * 2 + comp) ∧
    p.as_ndarray_data_view pol chan comp =
      (if comp = 0
       then (if pol = 0 then p.pol_a chan else p.pol_b chan).re
       else (if pol = 0 then p.pol_a chan else p.pol_b chan).im) := by
  refine ⟨rfl, ?_⟩
  rw [Payload.as_ndarray_data_view]
  interval_cases pol
  · have harg : 0 * (CHANNELS * 2) + chan * 2 + comp = chan * 2 + comp := by ring
    rw [harg, Payload.channelBytes_decode_a p chan comp hc hk]
    simp
  · have harg : 1 * (CHANNELS * 2) + chan * 2 + comp
        = CHANNELS * 2 + (chan * 2 + comp) := by ring
    rw [harg, Payload.channelBytes_decode_b p chan comp hc hk]
    simp

/-- Witness for C7 at `pol = 1`, `chan = 5`, `comp = 1` on a payload
whose imaginary part of `pol_b` channel 5 is 3. -/
theorem frame_view_layout_witness :
    (testPayload 3).as_ndarray_data_view 1 5 1 =
      (testPayload 3).channelBytes (1 * (CHANNELS * 2) + 5 * 2 + 1) ∧
    (testPayload 3).as_ndarray_data_view 1 5 1 =
      (if (1 : Nat) = 0
       then (if (1 : Nat) = 0 then (testPayload 3).pol_a 5 else (testPayload 3).pol_b 5).re
       else (if (1 : Nat) = 0 then (testPayload 3).pol_a 5 else (testPayload 3).pol_b 5).im) :=
  frame_view_layout (testPayload 3) 1 5 1 (by decide) (by decide) (by decide)

/-- C8: any state reached from `new c` (`c ≥ 1`) by a sequence of pushes
has `write_ptr` in `[0, c)`, still has capacity `c`, has `oldest = none`
iff no frame was ever inserted, and once `full` is true a further push
keeps it true. -/
theorem reachable_invariants (c : Nat) (hc : 1 ≤ c) (ps : List Payload) :
    ((DumpRing.new c).pushAll ps).write_ptr < c ∧
    ((DumpRing.new c).pushAll ps).capacity = c ∧
    (((DumpRing.new c).pushAll ps).oldest = none ↔ ps = []) ∧
    (∀ pl : Payload, ((DumpRing.new c).pushAll ps).full = true →
      (((DumpRing.new c).pushAll ps).push pl).full = true) := by
  have hcap : ((DumpRing.new c).pushAll ps).capacity = c := by
    rw [DumpRing.pushAll_capacity]
    rfl
  refine ⟨?_, hcap, ?_, ?_⟩
  · have h := DumpRing.pushAll_write_ptr_lt ps (DumpRing.new c) hc hc
    rwa [hcap] at h
  · constructor
    · intro h
      cases ps with
      | nil => rfl
      | cons p ps' =>
        exfalso
        have hs : (((DumpRing.new c).push p).pushAll ps').oldest.isSome = true :=
          DumpRing.pushAll_oldest_isSome ps' _ (DumpRing.push_oldest_isSome _ p)
        rw [DumpRing.pushAll_cons] at h
        rw [h] at hs
        exact Bool.false_ne_true hs
    · intro h
      subst h
      rfl
  · intro pl h
    exact DumpRing.push_full_mono _ pl h

/-- Witness for C8 at `c = 2`, one push. -/
theorem reachable_invariants_witness :
    ((DumpRing.new 2).pushAll [testPayload 0]).write_ptr < 2 ∧
    ((DumpRing.new 2).pushAll [testPayload 0]).capacity = 2 ∧
    (((DumpRing.new 2).pushAll [testPayload 0]).oldest = none ↔
      [testPayload 0] = ([] : List Payload)) ∧
    (∀ pl : Payload, ((DumpRing.new 2).pushAll [testPayload 0]).full = true →
      (((DumpRing.new 2).pushAll [testPayload 0]).push pl).full = true) :=
  reachable_invariants 2 (by decide) [testPayload 0]

/-- C9: `push` writes the frame's data view into the slot at the pre-call
`write_ptr`, leaves every other slot and the capacity unchanged, and
preserves the buffer length (the bookkeeping fields `write_ptr`, `oldest`
and `full` are the only other state it touches; it is total, i.e. never
fails). -/
theorem push_frame_effect (r : DumpRing) (pl : Payload)
    (h : r.write_ptr < r.buffer.length) :
    (r.push pl).capacity = r.capacity ∧
    (r.push pl).buffer.length = r.buffer.length ∧
    (r.push pl).buffer[r.write_ptr]? = some pl.as_ndarray_data_view ∧
    ∀ i : Nat, i ≠ r.write_ptr → (r.push pl).buffer[i]? = r.buffer[i]? := by
  refine ⟨DumpRing.push_capacity r pl, DumpRing.push_buffer_length r pl, ?_, ?_⟩
  · rw [DumpRing.push_buffer]
    exact List.getElem?_set_self h
  · intro i hi
    rw [DumpRing.push_buffer]
    exact List.getElem?_set_ne (Ne.symm hi)

/-- Witness for C9 on a fresh capacity-2 ring. -/
theorem push_frame_effect_witness :
    ((DumpRing.new 2).push (testPayload 7)).capacity = (DumpRing.new 2).capacity ∧
    ((DumpRing.new 2).push (testPayload 7)).buffer.length = (DumpRing.new 2).buffer.length ∧
    ((DumpRing.new 2).push (testPayload 7)).buffer[(DumpRing.new 2).write_ptr]? =
      some (testPayload 7).as_ndarray_data_view ∧
    (∀ i : Nat, i ≠ (DumpRing.new 2).write_ptr →
      ((DumpRing.new 2).push (testPayload 7)).buffer[i]? = (DumpRing.new 2).buffer[i]?) :=
  push_frame_effect (DumpRing.new 2) (testPayload 7) (by decide)

/-- C4: on every reachable state, the chronological split is
`(buffer[0 .. write_ptr), empty)` when not full, and
`(buffer[write_ptr .. capacity), buffer[0 .. write_ptr))` when full — in
particular, when full with `write_ptr = 0` the first region is the whole
buffer `buffer[0 .. capacity)` and the second region is empty. -/
theorem chronological_split (c : Nat) (hc : 1 ≤ c) (ps : List Payload) :
    (((DumpRing.new c).pushAll ps).full = false →
      ((DumpRing.new c).pushAll ps).consecutive_views =
        (regionSlice ((DumpRing.new c).pushAll ps).buffer 0
          ((DumpRing.new c).pushAll ps).write_ptr, ([] : List SlotData))) ∧
    (((DumpRing.new c).pushAll ps).full = true →
      ((DumpRing.new c).pushAll ps).consecutive_views =
        (regionSlice ((DumpRing.new c).pushAll ps).buffer
            ((DumpRing.new c).pushAll ps).write_ptr ((DumpRing.new c).pushAll ps).capacity,
         regionSlice ((DumpRing.new c).pushAll ps).buffer 0
            ((DumpRing.new c).pushAll ps).write_ptr)) := by
  have hcap : ((DumpRing.new c).pushAll ps).capacity = c := by
    rw [DumpRing.pushAll_capacity]
    rfl
  have hlen : ((DumpRing.new c).pushAll ps).buffer.length = c := by
    rw [DumpRing.pushAll_buffer_length]
    simp [DumpRing.new]
  constructor
  · intro hf
    simp [DumpRing.consecutive_views, hf, regionSlice]
  · intro hf
    have e1 : regionSlice ((DumpRing.new c).pushAll ps).buffer
        ((DumpRing.new c).pushAll ps).write_ptr ((DumpRing.new c).pushAll ps).capacity =
        ((DumpRing.new c).pushAll ps).buffer.drop ((DumpRing.new c).pushAll ps).write_ptr := by
      rw [regionSlice, List.take_of_length_le]
      rw [List.length_drop, hlen, hcap]
    have e2 : regionSlice ((DumpRing.new c).pushAll ps).buffer 0
        ((DumpRing.new c).pushAll ps).write_ptr =
        ((DumpRing.new c).pushAll ps).buffer.take ((DumpRing.new c).pushAll ps).write_ptr := by
      simp [regionSlice]
    simp [DumpRing.consecutive_views, hf, e1, e2]

/-- Witness for C4 at `c = 2` after one push (a not-yet-full state). -/
theorem chronological_split_witness :
    (((DumpRing.new 2).pushAll [testPayload 3]).full = false →
      ((DumpRing.new 2).pushAll [testPayload 3]).consecutive_views =
        (regionSlice ((DumpRing.new 2).pushAll [testPayload 3]).buffer 0
          ((DumpRing.new 2).pushAll [testPayload 3]).write_ptr, ([] : List SlotData))) ∧
    (((DumpRing.new 2).pushAll [testPayload 3]).full = true →
      ((DumpRing.new 2).pushAll [testPayload 3]).consecutive_views =
        (regionSlice ((DumpRing.new 2).pushAll [testPayload 3]).buffer
            ((DumpRing.new 2).pushAll [testPayload 3]).write_ptr
            ((DumpRing.new 2).pushAll [testPayload 3]).capacity,
         regionSlice ((DumpRing.new 2).pushAll [testPayload 3]).buffer 0
            ((DumpRing.new 2).pushAll [testPayload 3]).write_ptr)) :=
  chronological_split 2 (by decide) [testPayload 3]

lemma runSteps_ok {E : Type} (adapter : NcStep → Option E) (l : List NcStep)
    (h : ∀ s ∈ l, adapter s = none) :
    runSteps adapter l = (Except.ok (), l) := by
  induction l with
  | nil => rfl
  | cons s rest ih =>
    have hs := h s (List.mem_cons_self s rest)
    have hrest := ih fun t ht => h t (List.mem_cons_of_mem s ht)
    simp [runSteps, hs, hrest]

lemma runSteps_error {E : Type} (adapter : NcStep → Option E)
    (pre : List NcStep) (s : NcStep) (post : List NcStep) (e : E)
    (hpre : ∀ t ∈ pre, adapter t = none) (hs : adapter s = some e) :
    runSteps adapter (pre ++ s :: post) = (Except.error e, pre ++ [s]) := by
  induction pre with
  | nil => simp [runSteps, hs]
  | cons t pre ih =>
    have ht := hpre t (List.mem_cons_self t pre)
    have hpre' := ih fun u hu => hpre u (List.mem_cons_of_mem t hu)
    simp [runSteps, ht, hpre']

/-- C10: `dump` issues its adapter sub-operations in order; if every
sub-operation succeeds it returns `ok` having performed all of them, and
if one fails first it returns exactly that failure, performs none of the
sub-operations after it, and in both cases the ring state is returned
unchanged (`dump` only reads the store). -/
theorem dump_error_propagation {E : Type} (r : DumpRing) (cs : Nat)
    (adapter : NcStep → Option E) :
    ((∀ s ∈ r.dumpSteps cs, adapter s = none) →
      r.dump cs adapter = (Except.ok (), r.dumpSteps cs, r)) ∧
    (∀ (pre : List NcStep) (s : NcStep) (post : List NcStep) (e : E),
      r.dumpSteps cs = pre ++ s :: post →
      (∀ t ∈ pre, adapter t = none) → adapter s = some e →
      r.dump cs adapter = (Except.error e, pre ++ [s], r)) := by
  constructor
  · intro h
    simp [DumpRing.dump, runSteps_ok adapter _ h]
  · intro pre s post e hsplit hpre hs
    simp [DumpRing.dump, hsplit, runSteps_error adapter pre s post e hpre hs]

/-- An adapter that fails (with error code 7) on the very first
sub-operation, destination creation, and succeeds on everything else. -/
def failOnCreate : NcStep → Option Nat := fun s =>
  match s with
  | NcStep.create => some 7
  | _ => none

/-- Witness for C10: with `failOnCreate`, `dump` on a fresh capacity-1
ring returns the creation failure, performs only the creation step, and
returns the ring unchanged. -/
theorem dump_error_propagation_witness :
    (DumpRing.new 1).dump 1 failOnCreate =
      (Except.error 7, [NcStep.create], DumpRing.new 1) :=
  (dump_error_propagation (DumpRing.new 1) 1 failOnCreate).2 []
    NcStep.create (((DumpRing.new 1).dumpSteps 1).tail) 7 rfl (by simp) rfl

/-- `j` successive pushes of the frames `f 0, f 1, …, f (j-1)` (in that
order) onto a ring. -/
def DumpRing.pushSeq (r : DumpRing) (f : Nat → Payload) : Nat → DumpRing
  | 0 => r
  | j + 1 => (DumpRing.pushSeq r f j).push (f j)

lemma DumpRing.push_of_oldest_none (r : DumpRing) (pl : Payload)
    (h : r.oldest = none) :
    (r.push pl).write_ptr = (r.write_ptr + 1) % r.capacity ∧
    (r.push pl).full = r.full ∧
    (r.push pl).oldest = some pl.count := by
  simp [DumpRing.push, h]

lemma DumpRing.push_of_oldest_some (r : DumpRing) (pl : Payload) (o : Nat)
    (h : r.oldest = some o) :
    (r.push pl).write_ptr = (r.write_ptr + 1) % r.capacity ∧
    (r.push pl).full =
      (if ((r.write_ptr + 1) % r.capacity == 0 && !r.full) = true then true else r.full) ∧
    (r.push pl).oldest = some (if r.full then o + 1 else o) := by
  refine ⟨DumpRing.push_write_ptr r pl, ?_, ?_⟩ <;>
    by_cases hf : r.full <;> simp [DumpRing.push, h, hf]

lemma DumpRing.pushSeq_capacity (r : DumpRing) (f : Nat → Payload) (j : Nat) :
    (r.pushSeq f j).capacity = r.capacity := by
  induction j with
  | zero => rfl
  | succ j ih => rw [DumpRing.pushSeq, DumpRing.push_capacity, ih]

lemma DumpRing.pushSeq_buffer_length (r : DumpRing) (f : Nat → Payload) (j : Nat) :
    (r.pushSeq f j).buffer.length = r.buffer.length := by
  induction j with
  | zero => rfl
  | succ j ih => rw [DumpRing.pushSeq, DumpRing.push_buffer_length, ih]

/-- State evolution of a capacity-`c` ring (`c ≥ 2`) under `j ≥ 1` pushes
of frames with contiguous sequence numbers `s, s+1, …`: the cursor is at
`j % c`, the ring is full exactly when `j ≥ c`, and the oldest retained
sequence number is `s + (j - min j c)` (i.e. `s` while `j ≤ c`, then
advancing by one per eviction). -/
lemma DumpRing.pushSeq_state (c s : Nat) (hc : 2 ≤ c) (f : Nat → Payload)
    (hf : ∀ i, (f i).count = s + i) :
    ∀ j, 1 ≤ j →
      ((DumpRing.new c).pushSeq f j).write_ptr = j % c ∧
      ((DumpRing.new c).pushSeq f j).full = decide (c ≤ j) ∧
      ((DumpRing.new c).pushSeq f j).oldest = some (s + (j - min j c)) := by
  intro j hj
  induction j with
  | zero => omega
  | succ j ih =>
    rcases Nat.eq_or_lt_of_le hj with h1 | h1
    · -- base case: the very first push, via the early-return branch
      have hj0 : j = 0 := by omega
      subst hj0
      have hbase := DumpRing.push_of_oldest_none (DumpRing.new c) (f 0) rfl
      rw [DumpRing.pushSeq, DumpRing.pushSeq]
      refine ⟨hbase.1, ?_, ?_⟩
      · rw [hbase.2.1]
        have : ¬ c ≤ 1 := by omega
        simp [DumpRing.new, this]
      · rw [hbase.2.2, hf 0]
        have hmin : min 1 c = 1 := by omega
        rw [hmin]
    · -- inductive step: `j ≥ 1` pushes already done, oldest is `some _`
      have hj1 : 1 ≤ j := by omega
      obtain ⟨hwp, hfull, hold⟩ := ih hj1
      have hstep :=
        DumpRing.push_of_oldest_some ((DumpRing.new c).pushSeq f j) (f j)
          (s + (j - min j c)) hold
      rw [DumpRing.pushSeq]
      have hcap : ((DumpRing.new c).pushSeq f j).capacity = c :=
        DumpRing.pushSeq_capacity ..
      have hwp' : (((DumpRing.new c).pushSeq f j).write_ptr + 1) %
          ((DumpRing.new c).pushSeq f j).capacity = (j + 1) % c := by
        rw [hwp, hcap, Nat.mod_add_mod]
      refine ⟨by rw [hstep.1, hwp'], ?_, ?_⟩
      · rw [hstep.2.1, hwp', hfull]
        by_cases hcj : c ≤ j
        · have h2 : decide (c ≤ j) = true := by simp [hcj]
          have h3 : decide (c ≤ j + 1) = true := by simp; omega
          simp [h2, h3]
        · have h2 : decide (c ≤ j) = false := by simp [hcj]
          rcases Nat.eq_or_lt_of_le (by omega : j + 1 ≤ c) with he | hlt
          · have h4 : (j + 1) % c = 0 := by
              rw [he, Nat.mod_self]
            have h5 : decide (c ≤ j + 1) = true := by simp; omega
            simp [h2, h4, h5]
          · have h4 : (j + 1) % c = j + 1 := Nat.mod_eq_of_lt hlt
            have h5 : decide (c ≤ j + 1) = false := by simp; omega
            simp [h2, h4, h5]
      · rw [hstep.2.2, hfull]
        by_cases hcj : c ≤ j
        · have h2 : decide (c ≤ j) = true := by simp [hcj]
          have h3 : s + (j - min j c) + 1 = s + (j + 1 - min (j + 1) c) := by
            have : min j c = c := by omega
            have : min (j + 1) c = c := by omega
            omega
          simp only [h2, if_true, h3]
        · have h2 : decide (c ≤ j) = false := by simp [hcj]
          have h3 : s + (j - min j c) = s + (j + 1 - min (j + 1) c) := by
            have : min j c = j := by omega
            have : min (j + 1) c = j + 1 := by omega
            omega
          rw [h3]
          simp [h2]

/-- For every capacity `c ≥ 2`, the property of C1 does hold: after
`1 ≤ k ≤ c` pushes of frames with contiguous sequence numbers starting at
`s`, the store exposes exactly `k` logical frames, `oldest = some s`, and
it is full iff `k = c`.  (Together with the capacity-1 counterexamples,
this isolates the early-return slip to `capacity = 1`.) -/
theorem push_upto_capacity_of_two_le (c s k : Nat) (hc : 2 ≤ c)
    (f : Nat → Payload) (hf : ∀ i, (f i).count = s + i)
    (hk1 : 1 ≤ k) (hk2 : k ≤ c) :
    ((DumpRing.new c).pushSeq f k).logicalLen = k ∧
    ((DumpRing.new c).pushSeq f k).oldest = some s ∧
    (((DumpRing.new c).pushSeq f k).full = true ↔ k = c) := by
  obtain ⟨hwp, hfull, hold⟩ := DumpRing.pushSeq_state c s hc f hf k hk1
  have hlen : ((DumpRing.new c).pushSeq f k).buffer.length = c := by
    rw [DumpRing.pushSeq_buffer_length]
    simp [DumpRing.new]
  refine ⟨?_, ?_, ?_⟩
  · rcases Nat.eq_or_lt_of_le hk2 with he | hlt
    · have hf2 : ((DumpRing.new c).pushSeq f k).full = true := by
        rw [hfull]; simp; omega
      have hw2 : ((DumpRing.new c).pushSeq f k).write_ptr = 0 := by
        rw [hwp, he, Nat.mod_self]
      rw [DumpRing.logicalLen, DumpRing.consecutive_views, hf2, hw2]
      subst he
      simp [hlen]
    · have hf2 : ((DumpRing.new c).pushSeq f k).full = false := by
        rw [hfull]; simp; omega
      have hw2 : ((DumpRing.new c).pushSeq f k).write_ptr = k :=
        by rw [hwp]; exact Nat.mod_eq_of_lt hlt
      rw [DumpRing.logicalLen, DumpRing.consecutive_views, hf2, hw2]
      simp [hlen]
      omega
  · rw [hold]
    have h0 : k - min k c = 0 := by omega
    rw [h0]
    rfl
  · rw [hfull]
    simp
    omega

/-- For every capacity `c ≥ 2`, the property of C2 does hold: after
`k > c` pushes of frames with contiguous sequence numbers starting at
`s`, `oldest = some (s + (k - c))` and the store is full. -/
theorem push_beyond_capacity_of_two_le (c s k : Nat) (hc : 2 ≤ c)
    (f : Nat → Payload) (hf : ∀ i, (f i).count = s + i) (hk : c < k) :
    ((DumpRing.new c).pushSeq f k).oldest = some (s + (k - c)) ∧
    ((DumpRing.new c).pushSeq f k).full = true := by
  obtain ⟨hwp, hfull, hold⟩ := DumpRing.pushSeq_state c s hc f hf k (by omega)
  constructor
  · rw [hold]
    have : min k c = c := by omega
    rw [this]
  · rw [hfull]
    simp
    omega
